import Mathlib

/-!
Verification development for the `grid_search` parameter-sweep engine.

Shallow embedding conventions:
- `f64` values are modelled as `ℚ` (every value the theorems evaluate is exactly
  representable in binary floating point, and the comparison/branch structure of the
  code does not depend on rounding for those inputs); `f64::NEG_INFINITY` is `⊥` in
  `WithBot ℚ`.
- Rust strings are `String`/`List Char`; only the ASCII whitespace classes that the
  evaluated inputs contain are modelled.
- Filesystem and subprocess effects are modelled as explicit data: a subprocess run
  is a `SubprocessOutcome` value, the durable state file is a `State` value threaded
  through the fold, directory creation is the list of bucket indices created.
- Loops that the source writes over `f64` counters are given an explicit fuel
  argument; every concrete theorem below uses fuel large enough that the fuelled
  function has already reached the loop's exit (its value is then the loop's value).
-/

namespace GridSearch

/-! ## Generic character-list helpers (used by the parsers and the regex model) -/

/-- Boolean prefix test on character lists (`p` is a prefix of the second argument). -/
def isPref : List Char → List Char → Bool
  | [], _ => true
  | _ :: _, [] => false
  | a :: as, b :: bs => a == b && isPref as bs

/-- Boolean substring test: some suffix of `l` starts with `p`. -/
def containsSub (p : List Char) : List Char → Bool
  | [] => isPref p []
  | c :: tl => isPref p (c :: tl) || containsSub p tl

/-- Index of the first position of `l` at which `p` starts, if any. -/
def findIdxSub (p : List Char) : List Char → Option ℕ
  | [] => if isPref p [] then some 0 else none
  | c :: tl => if isPref p (c :: tl) then some 0 else (findIdxSub p tl).map (· + 1)

/-- Split a character list at every occurrence of `sep` (separators dropped). -/
def splitOnChar (sep : Char) : List Char → List (List Char)
  | [] => [[]]
  | c :: tl =>
    if c = sep then [] :: splitOnChar sep tl
    else
      match splitOnChar sep tl with
      | [] => [[c]]
      | h :: t => (c :: h) :: t

/-- ASCII whitespace, the only whitespace occurring in the modelled inputs. -/
def isWS (c : Char) : Bool := c == ' ' || c == '\t' || c == '\n' || c == '\r'

/-- Accumulator worker for `split_whitespace`. -/
def splitWsAux : List Char → List Char → List (List Char)
  | [], acc => if acc.isEmpty then [] else [acc.reverse]
  | c :: tl, acc =>
    if isWS c then
      (if acc.isEmpty then splitWsAux tl [] else acc.reverse :: splitWsAux tl [])
    else splitWsAux tl (c :: acc)

/-- Model of Rust `str::split_whitespace`: maximal runs of non-whitespace. -/
def split_whitespace (l : List Char) : List (List Char) := splitWsAux l []

/-- Model of Rust `str::lines`: split on newline, with no final empty line.
(`\r\n` line endings do not occur in the modelled inputs.) -/
def rustLines (l : List Char) : List (List Char) :=
  let parts := splitOnChar '\n' l
  if parts.getLast? = some [] then parts.dropLast else parts

/-! ## Decimal parsing (model of Rust `str::parse::<f64>()`)

The value of a parsed decimal is kept symbolic as a `(negative, integer part,
fraction digits value, fraction length)` tuple so that the character-level work is
computable by `decide`; `ratOfParts` turns the tuple into the exact `ℚ` value.
Exponent notation, `inf` and `NaN` are accepted by Rust but not modelled: no claim
evaluates such an input, and every input below parses to an exactly representable
value, so the `ℚ` result coincides with the `f64` result. -/

/-- Value of a nonempty all-digit string, or `none`. -/
def natOfDigits (l : List Char) : Option ℕ :=
  if (!l.isEmpty) && l.all (fun c => c.isDigit) then
    some (l.foldl (fun a c => a * 10 + (c.toNat - 48)) 0)
  else none

/-- Unsigned decimal: `digits`, `digits.`, `digits.digits` or `.digits`. -/
def parseUnsignedParts (m : List Char) : Option (Bool × ℕ × ℕ × ℕ) :=
  match splitOnChar '.' m with
  | [ip] => (natOfDigits ip).map (fun n => (false, n, 0, 0))
  | [ip, fp] =>
    if fp.isEmpty then (natOfDigits ip).map (fun n => (false, n, 0, 0))
    else if ip.isEmpty then (natOfDigits fp).map (fun f => (false, 0, f, fp.length))
    else
      match natOfDigits ip, natOfDigits fp with
      | some n, some f => some (false, n, f, fp.length)
      | _, _ => none
  | _ => none

/-- Optionally signed decimal. -/
def parseDecimalParts (l : List Char) : Option (Bool × ℕ × ℕ × ℕ) :=
  match l with
  | [] => none
  | c :: r =>
    if c == '+' then parseUnsignedParts r
    else if c == '-' then (parseUnsignedParts r).map (fun p => (true, p.2))
    else parseUnsignedParts (c :: r)

/-- Exact rational value of a parsed decimal. -/
def ratOfParts (p : Bool × ℕ × ℕ × ℕ) : ℚ :=
  (if p.1 then (-1 : ℚ) else 1) * ((p.2.1 : ℚ) + (p.2.2.1 : ℚ) / (10 : ℚ) ^ p.2.2.2)

/-! ## float_range.rs -/

/-- Model of `FloatRange` (src/grid_search/src/float_range.rs). The Rust field `end`
is a Lean keyword and is spelled `end_`. -/
structure FloatRange where
  current : ℚ
  end_ : ℚ
  step : ℚ
deriving DecidableEq

/-- Model of `FloatRange::next` (float_range.rs lines 10-21): return `None` when
`current` has passed `end` in the direction of `step`, else yield `current` and
advance it by `step`. -/
def FloatRange.next (r : FloatRange) : Option (ℚ × FloatRange) :=
  if (0 < r.step ∧ r.end_ ≤ r.current) ∨ (r.step < 0 ∧ r.current ≤ r.end_) then none
  else some (r.current, ⟨r.current + r.step, r.end_, r.step⟩)

/-- Model of `FloatRange::new` (float_range.rs lines 23-31). -/
def FloatRange.new (start end_ step : ℚ) : FloatRange := ⟨start, end_, step⟩

/-- Fuelled enumeration of the iterator: the list of values `next` yields.
(The Rust iterator with `step = 0` never terminates; with enough fuel the fuelled
list equals the terminating iterator's output.) -/
def FloatRange.toList : FloatRange → ℕ → List ℚ
  | _, 0 => []
  | r, n + 1 =>
    match r.next with
    | none => []
    | some (v, r1) => v :: r1.toList n

/-! ## main.rs range generation -/

/-- Model of main.rs `ParameterRange` (lines 45-50). -/
structure ParameterRange where
  start : ℚ
  end_ : ℚ
  step : ℚ
deriving DecidableEq

/-- Fuelled worker for `Config::generate_values`: the Rust
`while current <= param.end { values.push(current); current += param.step }` loop. -/
def genValuesAux (end_ step : ℚ) : ℚ → ℕ → List ℚ
  | _, 0 => []
  | current, n + 1 =>
    if current ≤ end_ then current :: genValuesAux end_ step (current + step) n else []

/-- Model of `Config::generate_values` (main.rs lines 69-77). Note the CLOSED upper
bound (`current <= param.end`), unlike `FloatRange::next`; for `step < 0` and
`start ≤ end` the Rust loop never exits, which shows up here as the fuelled list
never reaching the loop exit. -/
def generate_values (param : ParameterRange) (fuel : ℕ) : List ℚ :=
  genValuesAux param.end_ param.step param.start fuel

/-! ## lib.rs combination generation -/

/-- Model of lib.rs `generate_combinations` (lines 116-151): depth-first nesting of
the ranges in declaration order, index 0 outermost (so the first range varies
slowest). The Rust helper formats each leaf as `name = %.3f` lines; this model
returns the tuple of values each such string is built from. -/
def generate_combinations (fuel : ℕ) : List FloatRange → List (List ℚ)
  | [] => [[]]
  | r :: rs =>
    (FloatRange.toList r fuel).flatMap
      (fun v => (generate_combinations fuel rs).map (fun combo => v :: combo))

/-! ## Metric extractors -/

/-- Literal scanned for by the lib.rs regex `Total profit:\s*([\d,]+)`. -/
def totalProfitColon : List Char := "Total profit:".data

/-- Literal tested by main.rs `line.contains("Total profit")`. -/
def totalProfitBare : List Char := "Total profit".data

/-- Leftmost match of the lib.rs regex `Total profit:\s*([\d,]+)`: at the first
position where the literal matches and at least one `[\d,]` character follows the
optional whitespace, capture the maximal `[\d,]+` run; a position where the capture
would be empty does not match and scanning continues to the right. -/
def findCapture : List Char → Option (List Char)
  | [] => none
  | c :: tl =>
    if isPref totalProfitColon (c :: tl) then
      let rest := (c :: tl).drop totalProfitColon.length
      let rest2 := rest.dropWhile isWS
      let cap := rest2.takeWhile (fun ch => ch.isDigit || ch == ',')
      if cap.isEmpty then findCapture tl else some cap
    else findCapture tl

/-- Model of lib.rs `get_profit` (lines 35-46): regex capture, strip commas, parse.
The capture class `[\d,]+` has no decimal point, so it stops at a '.'. -/
def get_profit (output : String) : Option ℚ :=
  (findCapture output.data).bind
    (fun cap => (parseDecimalParts (cap.filter (fun c => c != ','))).map ratOfParts)

/-- Worker for main.rs `parse_profit`: scan the lines; on a line containing
`Total profit`, take the last whitespace-separated token, strip commas and parse;
on parse failure (or no token) the Rust loop logs and continues with later lines. -/
def parseProfitTok : List (List Char) → Option (Bool × ℕ × ℕ × ℕ)
  | [] => none
  | l :: ls =>
    if containsSub totalProfitBare l then
      match (split_whitespace l).getLast? with
      | some tok =>
        match parseDecimalParts (tok.filter (fun c => c != ',')) with
        | some p => some p
        | none => parseProfitTok ls
      | none => parseProfitTok ls
    else parseProfitTok ls

/-- Model of main.rs `parse_profit` (lines 111-133). -/
def parse_profit (output : String) : Option ℚ :=
  (parseProfitTok (rustLines output.data)).map ratOfParts

/-! ## lib.rs replace_constants (the template render) -/

/-- Marker literals of the lib.rs regex `(?s)# start.*?# end` and its replacement
`# start\n{new_constants}\n#end`. -/
def startMark : List Char := "# start".data

/-- End marker searched for by the regex (with a space). -/
def endMark : List Char := "# end".data

/-- End marker written by the replacement (without a space). -/
def hashEnd : List Char := "#end".data

/-- Model of lib.rs `replace_constants` (lines 87-92): replace the leftmost,
lazily-extended match of `(?s)# start.*?# end` by `# start\n{consts}\n#end`;
with no match the input is returned unchanged. Leftmost-lazy semantics: the match
starts at the first occurrence of `# start` and ends at the first occurrence of
`# end` beginning at or after the 7 characters of `# start` (if the first
`# start` has no following `# end` then no later one has either, so the regex
fails everywhere). -/
def replace_constants (script_contents consts : List Char) : List Char :=
  match findIdxSub startMark script_contents with
  | none => script_contents
  | some i =>
    match findIdxSub endMark (script_contents.drop (i + 7)) with
    | none => script_contents
    | some d =>
      script_contents.take i ++ startMark ++ ['\n'] ++ consts ++ ['\n'] ++ hashEnd
        ++ script_contents.drop (i + 7 + d + 5)

/-! ## main.rs sharded paths and directory preparation -/

/-- Subdirectory constant `SCRIPTS_SUBDIR` (main.rs line 19). -/
def SCRIPTS_SUBDIR : String := "scripts"

/-- Subdirectory constant `OUTPUT_SUBDIR` (main.rs line 20). -/
def OUTPUT_SUBDIR : String := "output"

/-- Bucket start `(index / 100) * 100`, computed inline in main.rs
`get_script_path` / `get_log_path`. -/
def shardStart (index : ℕ) : ℕ := index / 100 * 100

/-- Model of main.rs `get_script_path` (lines 135-146):
`{logs_dir}/{s}-{s+99}/scripts/script_{index}.py`. -/
def get_script_path (index : ℕ) (logs_dir : String) : String :=
  logs_dir ++ "/" ++ Nat.repr (shardStart index) ++ "-" ++ Nat.repr (shardStart index + 99)
    ++ "/" ++ SCRIPTS_SUBDIR ++ "/" ++ "script_" ++ Nat.repr index ++ ".py"

/-- Model of main.rs `get_log_path` (lines 148-158):
`{logs_dir}/{s}-{s+99}/output/log_{index}.txt`. -/
def get_log_path (index : ℕ) (logs_dir : String) : String :=
  logs_dir ++ "/" ++ Nat.repr (shardStart index) ++ "-" ++ Nat.repr (shardStart index + 99)
    ++ "/" ++ OUTPUT_SUBDIR ++ "/" ++ "log_" ++ Nat.repr index ++ ".txt"

/-- Model of main.rs `ensure_directories` (lines 160-171): the bucket start indices
whose `scripts/` and `output/` subdirectories are created before dispatch,
`i * 100` for `i < (total_scripts + 99) / 100`. -/
def ensure_directories (total_scripts : ℕ) : List ℕ :=
  (List.range ((total_scripts + 99) / 100)).map (fun k => k * 100)

/-! ## main.rs best-state tracking -/

/-- Model of main.rs `State` (lines 39-43); `max_profit` starts at
`f64::NEG_INFINITY`, modelled as `⊥`. -/
structure State where
  max_profit : WithBot ℚ
  constants : String
deriving DecidableEq

/-- Named empty string (the initial `constants`). -/
def emptyText : String := ""

/-- The default state `{max_profit: NEG_INFINITY, constants: String::new()}`. -/
def initState : State := ⟨⊥, emptyText⟩

/-- Model of main.rs `load_state` (lines 86-104) over the state file's content
(`none` = file absent). Returns the loaded state together with whether
`save_state` was called during loading (it is, immediately, when the file is
absent). A present-but-corrupt file (not modelled separately) also yields the
default without a write. -/
def load_state (file : Option State) : State × Bool :=
  match file with
  | none => (initState, true)
  | some s => (s, false)

/-- Model of one iteration of the result loop in main.rs `main` (lines 427-439)
together with `save_state` (lines 106-109): `mem` is the in-memory pair
`(best_profit, best_constants)`, `dur` the durable content of the state file.
On a strict improvement both are replaced (save_state writes the new state
before the loop continues); otherwise both are untouched. -/
def recordStep (mem dur : State) (profit : ℚ) (constants : String) : State × State :=
  if (profit : WithBot ℚ) > mem.max_profit then
    (⟨(profit : ℚ), constants⟩, ⟨(profit : ℚ), constants⟩)
  else (mem, dur)

/-- The whole result loop of main.rs `main`: fold `recordStep` over the
`(profit, constants)` results in enumeration order. Chunking (`chunks(100)` +
in-order `collect`) does not change this order, so it is elided. -/
def foldRecord (results : List (ℚ × String)) (init : State × State) : State × State :=
  results.foldl (fun md r => recordStep md.1 md.2 r.1 r.2) init

/-- Durable state file content after a full sweep, given the prior file content
`prior`: main.rs initialises its comparison baseline `best_profit` to
`f64::NEG_INFINITY` (line 368) — NOT to the loaded state — while the file keeps
its prior content until the first improvement over that baseline is saved. -/
def sweepDurable (prior : State) (results : List (ℚ × String)) : State :=
  (foldRecord results (initState, prior)).2

/-! ## main.rs run_and_get_profit -/

/-- Outcome of the `prosperity3bt` subprocess as observed by
`run_and_get_profit`: it either hit the 30s timeout, or completed with an exit
status and captured stdout. (A spawn failure panics in the source —
`.expect("Failed to start command")` — and therefore has no outcome value.) -/
inductive SubprocessOutcome where
  | timedOut : SubprocessOutcome
  | completed : Bool → String → SubprocessOutcome
deriving DecidableEq

/-- Model of main.rs `run_and_get_profit` (lines 230-294), as a function of the
subprocess outcome: timeout → kill the child and `return Ok(0.0)`; completed with
non-success status → `return Ok(0.0)`; completed successfully →
`parse_profit(&stdout).ok_or("Failed to parse profit")`. -/
def run_and_get_profit (o : SubprocessOutcome) : Except String ℚ :=
  match o with
  | .timedOut => .ok 0
  | .completed success stdout =>
    if success then
      match parse_profit stdout with
      | some p => .ok p
      | none => .error "Failed to parse profit"
    else .ok 0

/-- The profit value main.rs records for a task: `run_and_get_profit(..).unwrap_or(0.0)`
(line 423). -/
def dispatchProfit (o : SubprocessOutcome) : ℚ :=
  match run_and_get_profit o with
  | .ok p => p
  | .error _ => 0

/-- A per-task failure in the spec's taxonomy: the subprocess timed out, exited
with non-success status, or its stdout had no parseable metric. These are exactly
the outcomes whose metric the spec calls "absent". -/
def metricAbsent (o : SubprocessOutcome) : Bool :=
  match o with
  | .timedOut => true
  | .completed success stdout => !success || (parse_profit stdout).isNone

/-! ## main.rs combination enumeration and constants text -/

/-- Display of an `f64` under Rust's `{}` formatting, for the integral values the
theorems evaluate (Rust prints `1.0_f64` as `1`); non-integral values are given a
num/den fallback not used by any theorem. -/
def fmtF64 (q : ℚ) : String :=
  if q.den = 1 then Int.repr q.num else Int.repr q.num ++ "/" ++ Nat.repr q.den

/-- The textual constants block main.rs builds for one combination
(`format!("{} = {}\n", name, value)` per parameter, concatenated in iteration
order). -/
def constantsText (combo : List (String × ℚ)) : String :=
  combo.foldl (fun acc nv => acc ++ nv.1 ++ " = " ++ fmtF64 nv.2 ++ "\n") emptyText

/-- The combination tuples main.rs enumerates (lines 344-389): the mixed-radix
index loop over `param_names`, last parameter varying fastest — equivalently this
nesting with the first listed parameter outermost. `param_names` comes from
iterating a `HashMap`, whose order is arbitrary and varies between runs; that
order is modelled by the order of the input list. -/
def cartesianNamed (fuel : ℕ) : List (String × ParameterRange) → List (List (String × ℚ))
  | [] => [[]]
  | (n, pr) :: ps =>
    (generate_values pr fuel).flatMap
      (fun v => (cartesianNamed fuel ps).map (fun combo => (n, v) :: combo))

/-- The `constants_list` of main.rs: one constants block per combination. -/
def constantsList (fuel : ℕ) (params : List (String × ParameterRange)) : List String :=
  (cartesianNamed fuel params).map constantsText

/-- One whole sweep of main.rs `main`, as a function of the (deterministic)
evaluated program `profit : constants block ↦ recorded profit` and the prior
durable state: first component is the final in-memory best, second the final
durable state-file content. -/
def runSweep (params : List (String × ParameterRange)) (profit : String → ℚ)
    (fuel : ℕ) (prior : State) : State × State :=
  foldRecord ((constantsList fuel params).map (fun c => (profit c, c))) (initState, prior)

/-- The evolution of main.rs `best_profit` alone under one recorded result. -/
def maxStep (b : WithBot ℚ) (p : ℚ) : WithBot ℚ :=
  if (p : WithBot ℚ) > b then (p : WithBot ℚ) else b

/-- The replacement's opening text `# start\n`, as one block. -/
def startNl : List Char := "# start\n".data

/-- The replacement's closing text `\n#end`, as one block. -/
def nlHashEnd : List Char := "\n#end".data

/-! ## Concrete inputs used by the theorems -/

/-- Sample stdout with a labeled metric (spec §8). -/
def profitLineText : String := "Total profit: 1,234.50"

/-- Sample stdout with no labeled metric (spec §8). -/
def noProfitText : String := "no relevant line"

/-- Constants text of a previously recorded valid best. -/
def goodText : String := "good"

/-- Constants text of a failing task. -/
def badText : String := "bad"

/-- Arbitrary prior constants text. -/
def xText : String := "x"

/-- Arbitrary new constants text. -/
def yText : String := "y"

/-- Parameter name `a`. -/
def aText : String := "a"

/-- Parameter name `b`. -/
def bText : String := "b"

/-- The range `[0, 2, 1)` of the spec §8 example. -/
def pr021 : ParameterRange := ⟨0, 2, 1⟩

/-- A state holding a worse-but-valid (negative) best. -/
def negBest : State := ⟨((-5 : ℚ) : WithBot ℚ), goodText⟩

/-- A state holding a positive best. -/
def posBest : State := ⟨((3 : ℚ) : WithBot ℚ), goodText⟩

/-- Prior durable best of 100. -/
def priorHundred : State := ⟨((100 : ℚ) : WithBot ℚ), xText⟩

/-- A single-value range producing `[1]` under `generate_values`. -/
def prOne : ParameterRange := ⟨1, 1, 1⟩

/-- A single-value range producing `[2]` under `generate_values`. -/
def prTwo : ParameterRange := ⟨2, 2, 1⟩

/-- Parameters `a` then `b` (one possible HashMap iteration order). -/
def paramsAB : List (String × ParameterRange) := [(aText, prOne), (bText, prTwo)]

/-- Parameters `b` then `a` (the other possible HashMap iteration order). -/
def paramsBA : List (String × ParameterRange) := [(bText, prTwo), (aText, prOne)]

/-- A deterministic evaluated program ignoring its input. -/
def constProfit : String → ℚ := fun _ => 5

/-- A template containing both markers but with `# end` only before `# start`. -/
def tOrphan : List Char := "# end # start".data

/-- A well-formed template: one `# start`, one `# end` after it. -/
def tGood : List Char := "A# start MID# end POST".data

/-- Injected constants for the render theorems. -/
def constsGood : List Char := "C1 = 2".data

/-- A second constants block, for re-rendering. -/
def constsAlt : List Char := "K = 3".data

/-- Expected script path of index 250 (spec §8 example). -/
def s250path : String := "logs/200-299/scripts/script_250.py"

/-- Expected log path of index 0 (spec §8 example). -/
def s0logpath : String := "logs/0-99/output/log_0.txt"

/-- Logs directory name of the spec §8 example. -/
def logsText : String := "logs"

/-! # Helper lemmas -/

/-- A per-task failure is recorded by the dispatcher as the profit value `0.0`
(main.rs line 423 `unwrap_or(0.0)` together with the `Ok(0.0)` returns of
`run_and_get_profit`). -/
theorem dispatchProfit_absent (o : SubprocessOutcome) (h : metricAbsent o = true) :
    dispatchProfit o = 0 := by
  cases o with
  | timedOut => rfl
  | completed success stdout =>
    cases success with
    | false => rfl
    | true =>
      simp only [metricAbsent, Bool.not_true, Bool.false_or, Option.isNone_iff_eq_none] at h
      simp [dispatchProfit, run_and_get_profit, h]

/-- With a positive step, `next` stops as soon as `current` has reached `end`. -/
theorem floatRange_next_stop_pos (r : FloatRange) (h1 : 0 < r.step)
    (h2 : r.end_ ≤ r.current) : r.next = none := by
  simp [FloatRange.next, h1, h2]

/-- With a negative step, `next` stops as soon as `current` has reached `end`. -/
theorem floatRange_next_stop_neg (r : FloatRange) (h1 : r.step < 0)
    (h2 : r.current ≤ r.end_) : r.next = none := by
  simp [FloatRange.next, h1, h2]

/-- With a positive step strictly before `end`, `next` yields `current` and adds. -/
theorem floatRange_next_yield_pos (r : FloatRange) (h1 : 0 < r.step)
    (h2 : r.current < r.end_) :
    r.next = some (r.current, ⟨r.current + r.step, r.end_, r.step⟩) := by
  have hne : ¬ r.end_ ≤ r.current := not_le.mpr h2
  have hns : ¬ r.step < 0 := not_lt.mpr h1.le
  simp [FloatRange.next, hne, hns]

/-- With a negative step strictly after `end`, `next` yields `current` and adds. -/
theorem floatRange_next_yield_neg (r : FloatRange) (h1 : r.step < 0)
    (h2 : r.end_ < r.current) :
    r.next = some (r.current, ⟨r.current + r.step, r.end_, r.step⟩) := by
  have hne : ¬ r.current ≤ r.end_ := not_le.mpr h2
  have hns : ¬ 0 < r.step := not_lt.mpr h1.le
  simp [FloatRange.next, hne, hns]

/-- A positive-step range whose start is already at or past `end` yields nothing. -/
theorem floatRange_toList_nil_pos (s e st : ℚ) (fuel : ℕ) (h1 : 0 < st) (h2 : e ≤ s) :
    FloatRange.toList (FloatRange.new s e st) fuel = [] := by
  cases fuel with
  | zero => rfl
  | succ n =>
    simp [FloatRange.toList, floatRange_next_stop_pos (FloatRange.new s e st) h1 h2]

/-- A negative-step range whose start is already at or before `end` yields nothing. -/
theorem floatRange_toList_nil_neg (s e st : ℚ) (fuel : ℕ) (h1 : st < 0) (h2 : s ≤ e) :
    FloatRange.toList (FloatRange.new s e st) fuel = [] := by
  cases fuel with
  | zero => rfl
  | succ n =>
    simp [FloatRange.toList, floatRange_next_stop_neg (FloatRange.new s e st) h1 h2]

/-! # Claim C1 -/

/-- C1 fails on the code: a result whose metric is absent (here: a successful exit
whose stdout has no labeled number) is recorded as profit `0.0`, and recording it
over a previously recorded worse-but-valid best of `-5` REPLACES that best (in
memory and in the durable state) with `0.0` and the failed task's constants. -/
theorem c1_counterexample :
    metricAbsent (SubprocessOutcome.completed true noProfitText) = true ∧
    recordStep negBest negBest
        (dispatchProfit (SubprocessOutcome.completed true noProfitText)) badText =
      (⟨((0 : ℚ) : WithBot ℚ), badText⟩, ⟨((0 : ℚ) : WithBot ℚ), badText⟩) := by
  constructor
  · decide
  · have h : parseProfitTok (rustLines noProfitText.data) = none := by decide
    simp [dispatchProfit, run_and_get_profit, parse_profit, h, recordStep, negBest]

/-- C1 amended: a result whose metric is absent (timeout, non-zero exit or
unparseable stdout) is recorded with the conflated profit value `0.0`; recording it
leaves `BestState` (in-memory and durable) unchanged IF AND ONLY IF the current
best is at least `0.0` — a negative or `−∞` best is overwritten by the failed
task's `0.0`. -/
theorem c1_absent_zero_overwrites (o : SubprocessOutcome) (mem dur : State) (c : String)
    (h : metricAbsent o = true) :
    dispatchProfit o = 0 ∧
    (recordStep mem dur (dispatchProfit o) c = (mem, dur) ↔
      ((0 : ℚ) : WithBot ℚ) ≤ mem.max_profit) := by
  have h0 : dispatchProfit o = 0 := dispatchProfit_absent o h
  refine ⟨h0, ?_⟩
  rw [h0]
  by_cases hlt : ((0 : ℚ) : WithBot ℚ) > mem.max_profit
  · simp only [recordStep, if_pos hlt]
    constructor
    · intro he
      exfalso
      have h1 : (State.mk ((0 : ℚ) : WithBot ℚ) c) = mem := congrArg Prod.fst he
      rw [← h1] at hlt
      exact lt_irrefl _ hlt
    · intro hle
      exact absurd hlt (not_lt.mpr hle)
  · simp only [recordStep, if_neg hlt]
    exact iff_of_true trivial (not_lt.mp hlt)

/-- Witness for C1's amended theorem at a concrete failed outcome and a concrete
non-negative best. -/
theorem c1_witness :
    dispatchProfit SubprocessOutcome.timedOut = 0 ∧
    (recordStep posBest posBest (dispatchProfit SubprocessOutcome.timedOut) badText =
        (posBest, posBest) ↔
      ((0 : ℚ) : WithBot ℚ) ≤ posBest.max_profit) :=
  c1_absent_zero_overwrites SubprocessOutcome.timedOut posBest posBest badText (by decide)

/-! # Claim C2 -/

/-- C2 fails on the code: `Config::generate_values` (main.rs) uses the CLOSED bound
`current <= end`, so for the range `(0, 2, 1)` the value exactly equal to `end`
IS included: the produced list is `[0, 1, 2]`. -/
theorem c2_counterexample : generate_values pr021 10 = [0, 1, 2] := by
  norm_num [generate_values, genValuesAux, pr021]

/-- C2 amended: the claimed enumeration behaviour holds for the `FloatRange`
iterator (half-open: with `step > 0`, `current = end` terminates without yielding;
sign disagreement yields zero values; otherwise repeated addition from `start`),
while main.rs `Config::generate_values` uses a closed upper bound and includes a
value exactly equal to `end`. -/
theorem c2_enumeration (r : FloatRange) (s e st : ℚ) (fuel : ℕ) :
    (0 < r.step → r.end_ ≤ r.current → r.next = none) ∧
    (r.step < 0 → r.current ≤ r.end_ → r.next = none) ∧
    (0 < r.step → r.current < r.end_ →
      r.next = some (r.current, ⟨r.current + r.step, r.end_, r.step⟩)) ∧
    (r.step < 0 → r.end_ < r.current →
      r.next = some (r.current, ⟨r.current + r.step, r.end_, r.step⟩)) ∧
    (0 < st → e ≤ s → FloatRange.toList (FloatRange.new s e st) fuel = []) ∧
    (st < 0 → s ≤ e → FloatRange.toList (FloatRange.new s e st) fuel = []) ∧
    generate_values pr021 10 = [0, 1, 2] :=
  ⟨floatRange_next_stop_pos r, floatRange_next_stop_neg r,
   floatRange_next_yield_pos r, floatRange_next_yield_neg r,
   floatRange_toList_nil_pos s e st fuel, floatRange_toList_nil_neg s e st fuel,
   by norm_num [generate_values, genValuesAux, pr021]⟩

/-- Witness for C2's amended theorem at concrete ranges. -/
theorem c2_witness :
    (FloatRange.mk 2 2 1).next = none ∧
    (FloatRange.mk 2 2 (-1)).next = none ∧
    (FloatRange.mk 0 2 1).next = some (0, ⟨0 + 1, 2, 1⟩) ∧
    (FloatRange.mk 2 0 (-1)).next = some (2, ⟨2 + -1, 0, -1⟩) ∧
    FloatRange.toList (FloatRange.new 3 1 1) 5 = [] ∧
    FloatRange.toList (FloatRange.new 1 3 (-1)) 5 = [] := by
  have h1 := (c2_enumeration (FloatRange.mk 2 2 1) 3 1 1 5).1 (by norm_num) (by norm_num)
  have h2 := (c2_enumeration (FloatRange.mk 2 2 (-1)) 3 1 1 5).2.1 (by norm_num) (by norm_num)
  have h3 := (c2_enumeration (FloatRange.mk 0 2 1) 3 1 1 5).2.2.1 (by norm_num) (by norm_num)
  have h4 := (c2_enumeration (FloatRange.mk 2 0 (-1)) 3 1 1 5).2.2.2.1 (by norm_num) (by norm_num)
  have h5 := (c2_enumeration (FloatRange.mk 0 2 1) 3 1 1 5).2.2.2.2.1 (by norm_num) (by norm_num)
  have h6 := (c2_enumeration (FloatRange.mk 0 2 1) 1 3 (-1) 5).2.2.2.2.2.1 (by norm_num) (by norm_num)
  exact ⟨h1, h2, h3, h4, h5, h6⟩

/-! # Claim C3 -/

/-- C3 fails on the code for the lib.rs extractor: its capture class `[\d,]+` has
no decimal point, so `get_profit("Total profit: 1,234.50")` stops the capture at
the '.' and returns `1234`, not `1234.5`. -/
theorem c3_counterexample :
    get_profit profitLineText = some ((1234 : ℚ)) ∧ ((1234 : ℚ)) ≠ ((1234.5 : ℚ)) := by
  constructor
  · have h : get_profit profitLineText = some (ratOfParts (false, 1234, 0, 0)) := by rfl
    rw [h]
    norm_num [ratOfParts]
  · norm_num

/-- C3 amended: main.rs `parse_profit` applied to `"Total profit: 1,234.50"`
returns `1234.5` (commas stripped, fractional part kept); lib.rs `get_profit`
returns `1234` (capture stops at the decimal point); on a string with no labeled
number both return `none`, never `0`. -/
theorem c3_extractors :
    parse_profit profitLineText = some ((1234.5 : ℚ)) ∧
    get_profit profitLineText = some ((1234 : ℚ)) ∧
    parse_profit noProfitText = none ∧
    get_profit noProfitText = none := by
  refine ⟨?_, ?_, ?_, ?_⟩
  · have h : parse_profit profitLineText = some (ratOfParts (false, 1234, 50, 2)) := by rfl
    rw [h]
    norm_num [ratOfParts]
  · have h : get_profit profitLineText = some (ratOfParts (false, 1234, 0, 0)) := by rfl
    rw [h]
    norm_num [ratOfParts]
  · have h : parseProfitTok (rustLines noProfitText.data) = none := by decide
    simp [parse_profit, h]
  · have h : findCapture noProfitText.data = none := by decide
    simp [get_profit, h]

/-! # Claim C4 -/

/-- C4 fails on the code: a timed-out task's subprocess is killed and the call
returns non-fatally, but with the PRESENT metric value `0.0` (`return Ok(0.0)`),
not with an absent metric. -/
theorem c4_counterexample :
    run_and_get_profit SubprocessOutcome.timedOut = Except.ok 0 := rfl

/-- C4 amended: a timeout (after killing the subprocess) and a non-zero exit both
return the non-fatal value `Ok(0.0)`; an unparseable stdout returns a per-task
error; in every such failed case the profit the dispatcher records is the present
value `0.0`, not an absent metric. (Spawn failure is NOT isolated in the source:
`.expect("Failed to start command")` panics.) -/
theorem c4_failure_isolation (o : SubprocessOutcome) (out : String)
    (h : metricAbsent o = true) :
    dispatchProfit o = 0 ∧
    run_and_get_profit SubprocessOutcome.timedOut = Except.ok 0 ∧
    run_and_get_profit (SubprocessOutcome.completed false out) = Except.ok 0 :=
  ⟨dispatchProfit_absent o h, rfl, rfl⟩

/-- Witness for C4's amended theorem at the timeout outcome. -/
theorem c4_witness :
    dispatchProfit SubprocessOutcome.timedOut = 0 ∧
    run_and_get_profit SubprocessOutcome.timedOut = Except.ok 0 ∧
    run_and_get_profit (SubprocessOutcome.completed false noProfitText) = Except.ok 0 :=
  c4_failure_isolation SubprocessOutcome.timedOut noProfitText (by decide)

/-! # Claim C5 -/

/-- C5: `load_state` does initialise and immediately write `{−∞, ""}` for an
absent file, but main.rs does NOT use the loaded value as the comparison
baseline: `best_profit` restarts at `−∞` (the loaded state is bound and never
read), so a sweep whose best profit is `50` OVERWRITES a prior durable best of
`100` — evaluating the code at the failing input shows the durable state ends as
`{50, "y"}`. -/
theorem c5_stale_baseline :
    load_state none = (initState, true) ∧
    sweepDurable priorHundred [((50 : ℚ), yText)] = ⟨((50 : ℚ) : WithBot ℚ), yText⟩ := by
  constructor
  · rfl
  · simp only [sweepDurable, foldRecord, recordStep, List.foldl]
    decide

/-! # Claim C6 -/

/-- Summing a constant over a list multiplies it by the length. -/
theorem sum_map_const_nat {α : Type} (l : List α) (c : ℕ) :
    (l.map (fun _ => c)).sum = l.length * c := by
  induction l with
  | nil => simp
  | cons a tl ih => simp [ih, Nat.succ_mul, Nat.add_comm]

/-- The combination count is the product of the per-range value counts. -/
theorem generate_combinations_length (fuel : ℕ) (ranges : List FloatRange) :
    (generate_combinations fuel ranges).length =
      (ranges.map (fun r => (FloatRange.toList r fuel).length)).prod := by
  induction ranges with
  | nil => simp [generate_combinations]
  | cons r rs ih =>
    simp only [generate_combinations, List.length_flatMap, List.map_map]
    simp only [Function.comp_def, List.length_map]
    rw [sum_map_const_nat, ih, List.map_cons, List.prod_cons]

/-- C6: for every list of ranges, lib.rs `generate_combinations` produces exactly
(product of the per-range value counts) combinations, with the first declared
range varying slowest; on the spec §8 example ranges `A:[0,2,1)`, `B:[0,3,1.5)`
it yields the 4 combinations `(0,0),(0,1.5),(1,0),(1,1.5)` in that order. -/
theorem c6_cartesian_product (fuel : ℕ) (ranges : List FloatRange) :
    (generate_combinations fuel ranges).length =
      (ranges.map (fun r => (FloatRange.toList r fuel).length)).prod ∧
    generate_combinations 10 [FloatRange.new 0 2 1, FloatRange.new 0 3 (3 / 2)] =
      ([[0, 0], [0, 3 / 2], [1, 0], [1, 3 / 2]] : List (List ℚ)) :=
  ⟨generate_combinations_length fuel ranges, by
    norm_num [generate_combinations, FloatRange.toList, FloatRange.next, FloatRange.new]⟩

/-! # Claim C7 -/

/-- One fold step of the result loop, as a `foldRecord` unfolding. -/
theorem foldRecord_cons (r : ℚ × String) (tl : List (ℚ × String)) (init : State × State) :
    foldRecord (r :: tl) init = foldRecord tl (recordStep init.1 init.2 r.1 r.2) := rfl

/-- The in-memory `best_profit` after the result loop is the `maxStep` fold of the
profits alone, regardless of the constants texts. -/
theorem foldRecord_fst_max (rs : List (ℚ × String)) :
    ∀ mem dur : State, ((foldRecord rs (mem, dur)).1).max_profit =
      (rs.map Prod.fst).foldl maxStep mem.max_profit := by
  induction rs with
  | nil => intro mem dur; rfl
  | cons r tl ih =>
    intro mem dur
    rw [foldRecord_cons]
    by_cases h : (r.1 : WithBot ℚ) > mem.max_profit
    · rw [show recordStep mem dur r.1 r.2 = (⟨((r.1 : ℚ) : WithBot ℚ), r.2⟩,
          ⟨((r.1 : ℚ) : WithBot ℚ), r.2⟩) from by simp [recordStep, h]]
      rw [ih]
      simp [maxStep, h]
    · rw [show recordStep mem dur r.1 r.2 = (mem, dur) from by simp [recordStep, h]]
      rw [ih]
      simp [maxStep, h]

/-- The fold step is `max` on `WithBot ℚ`. -/
theorem maxStep_max (b : WithBot ℚ) (p : ℚ) : maxStep b p = max b ((p : ℚ) : WithBot ℚ) := by
  rcases lt_or_ge b ((p : ℚ) : WithBot ℚ) with h | h
  · rw [maxStep, if_pos h, max_eq_right h.le]
  · rw [maxStep, if_neg (not_lt.mpr h), max_eq_left h]

/-- Folding `maxStep` is invariant under permutation of the profits. -/
theorem foldl_maxStep_perm {l₁ l₂ : List ℚ} (h : l₁.Perm l₂) :
    ∀ b : WithBot ℚ, l₁.foldl maxStep b = l₂.foldl maxStep b := by
  induction h with
  | nil => intro b; rfl
  | cons x _ ih => intro b; simp only [List.foldl_cons]; exact ih _
  | swap x y l =>
    intro b
    simp only [List.foldl_cons]
    rw [show maxStep (maxStep b y) x = maxStep (maxStep b x) y from by
      rw [maxStep_max, maxStep_max, maxStep_max, maxStep_max, sup_right_comm]]
  | trans _ _ ih1 ih2 => intro b; rw [ih1 b, ih2 b]

/-- C7 fails on the code: the same configuration run twice can produce different
`BestState` content. `param_names` iterates a `HashMap`, whose order varies
between process runs; with parameters `a` and `b` (one value each) and a
deterministic evaluated program returning `5` for every input, the two possible
iteration orders make the sweep record constants texts `"a = 1\nb = 2\n"` versus
`"b = 2\na = 1\n"` — different final `BestState` content. -/
theorem c7_counterexample :
    (runSweep paramsAB constProfit 10 initState).1 ≠
      (runSweep paramsBA constProfit 10 initState).1 := by
  have h1 : generate_values prOne 10 = [1] := by norm_num [generate_values, genValuesAux, prOne]
  have h2 : generate_values prTwo 10 = [2] := by norm_num [generate_values, genValuesAux, prTwo]
  simp [runSweep, constantsList, cartesianNamed, paramsAB, paramsBA, h1, h2, foldRecord,
    constantsText, fmtF64, recordStep, initState]
  decide

/-- C7 amended: across two runs whose result lists carry the same profits up to
permutation (as for a deterministic evaluated program under any HashMap order,
worker count or completion order), the final `maxMetric` of `BestState` is
identical; the `combinationText` is NOT guaranteed identical, because the
parameter line order and tie-breaking follow the run's arbitrary HashMap
iteration order. -/
theorem c7_max_profit_perm (rs₁ rs₂ : List (ℚ × String)) (prior : State)
    (h : (rs₁.map Prod.fst).Perm (rs₂.map Prod.fst)) :
    ((foldRecord rs₁ (initState, prior)).1).max_profit =
      ((foldRecord rs₂ (initState, prior)).1).max_profit := by
  rw [foldRecord_fst_max, foldRecord_fst_max]
  exact foldl_maxStep_perm h _

/-- Witness for C7's amended theorem on two reordered result lists. -/
theorem c7_witness :
    ((foldRecord [((1 : ℚ), xText), ((2 : ℚ), yText)] (initState, initState)).1).max_profit =
      ((foldRecord [((2 : ℚ), yText), ((1 : ℚ), xText)] (initState, initState)).1).max_profit :=
  c7_max_profit_perm _ _ initState (by decide)

/-! # Claim C8 -/

/-- C8: the shard bucket of index `i` is `[floor(i/100)*100, floor(i/100)*100+99]`;
each index lies in its own bucket, buckets are equal or disjoint (and two indices
share a bucket exactly when `i/100 = j/100`), each bucket spans 100 indices, every
index below the task count has its bucket pre-created by `ensure_directories`, and
the concrete spec examples hold: index 250 maps to `200-299`, index 0 to `0-99`. -/
theorem c8_shard_buckets (i j N s : ℕ) :
    (shardStart i ≤ i ∧ i < shardStart i + 100) ∧
    (shardStart i = shardStart j ↔ i / 100 = j / 100) ∧
    (shardStart i = shardStart j ∨ shardStart i + 100 ≤ shardStart j ∨
      shardStart j + 100 ≤ shardStart i) ∧
    ((Finset.Ico (s * 100) (s * 100 + 100)).card = 100) ∧
    (i < N → shardStart i ∈ ensure_directories N) ∧
    get_script_path 250 logsText = s250path ∧
    get_log_path 0 logsText = s0logpath := by
  refine ⟨?_, ?_, ?_, ?_, ?_, ?_, ?_⟩
  · simp only [shardStart]; omega
  · simp only [shardStart]; omega
  · simp only [shardStart]; omega
  · simp [Nat.card_Ico]
  · intro hiN
    simp only [ensure_directories, List.mem_map, List.mem_range]
    exact ⟨i / 100, by omega, by simp [shardStart]⟩
  · decide
  · decide

/-- Witness for C8 at index 250 with 300 tasks. -/
theorem c8_witness :
    (shardStart 250 ≤ 250 ∧ 250 < shardStart 250 + 100) ∧
    shardStart 250 ∈ ensure_directories 300 :=
  ⟨(c8_shard_buckets 250 0 300 0).1, (c8_shard_buckets 250 0 300 0).2.2.2.2.1 (by decide)⟩

/-! # Claim C9 -/

/-- C9: recording a present profit strictly above the current best replaces both
the in-memory best and the durable state (in one step, before the loop
continues) with that profit and the combination's text; a tie or non-improvement
leaves both exactly unchanged. -/
theorem c9_record_persist (mem dur : State) (p : ℚ) (c : String) :
    ((p : WithBot ℚ) > mem.max_profit →
      recordStep mem dur p c =
        (⟨((p : ℚ) : WithBot ℚ), c⟩, ⟨((p : ℚ) : WithBot ℚ), c⟩)) ∧
    (¬ (p : WithBot ℚ) > mem.max_profit → recordStep mem dur p c = (mem, dur)) := by
  constructor <;> intro h <;> simp [recordStep, h]

/-- Witness for C9: an improvement over a best of 3, and a non-improvement. -/
theorem c9_witness :
    recordStep posBest posBest 7 yText =
      (⟨((7 : ℚ) : WithBot ℚ), yText⟩, ⟨((7 : ℚ) : WithBot ℚ), yText⟩) ∧
    recordStep posBest posBest 1 yText = (posBest, posBest) :=
  ⟨(c9_record_persist posBest posBest 7 yText).1 (by decide),
   (c9_record_persist posBest posBest 1 yText).2 (by decide)⟩

/-! # Claim C10: substring lemmas -/

/-- A substring occurrence is a prefix occurrence at some drop position. -/
theorem containsSub_iff (p l : List Char) :
    containsSub p l = true ↔ ∃ n, isPref p (l.drop n) = true := by
  induction l with
  | nil =>
    constructor
    · intro h; exact ⟨0, h⟩
    · rintro ⟨n, hn⟩
      simpa [List.drop_nil] using hn
  | cons c tl ih =>
    constructor
    · intro h
      rcases (Bool.or_eq_true _ _).mp (by simpa [containsSub] using h) with h1 | h2
      · exact ⟨0, by simpa using h1⟩
      · rcases ih.mp h2 with ⟨n, hn⟩
        exact ⟨n + 1, by simpa using hn⟩
    · rintro ⟨n, hn⟩
      cases n with
      | zero =>
        simp only [containsSub, Bool.or_eq_true]
        exact Or.inl (by simpa using hn)
      | succ m =>
        simp only [containsSub, Bool.or_eq_true]
        exact Or.inr (ih.mpr ⟨m, by simpa using hn⟩)

/-- A prefix of an append no longer than the left part is a prefix of it. -/
theorem isPref_append_left (p x y : List Char) (hlen : p.length ≤ x.length)
    (h : isPref p (x ++ y) = true) : isPref p x = true := by
  induction p generalizing x with
  | nil => simp [isPref]
  | cons a as ih =>
    cases x with
    | nil => simp at hlen
    | cons b bs =>
      simp only [List.cons_append, isPref, Bool.and_eq_true] at h ⊢
      exact ⟨h.1, ih bs (by simp only [List.length_cons] at hlen; omega) h.2⟩

/-- Contrapositive form of `isPref_append_left`. -/
theorem isPref_append_left_neg (p x y : List Char) (hlen : p.length ≤ x.length)
    (h : isPref p x = false) : isPref p (x ++ y) = false := by
  cases hh : isPref p (x ++ y) with
  | false => rfl
  | true => exact absurd (isPref_append_left p x y hlen hh) (by simp [h])

/-- A prefix of an append at least as long as the left part determines the left
part and continues as a prefix of the right part. -/
theorem isPref_append_split (p x y : List Char) (hlen : x.length ≤ p.length)
    (h : isPref p (x ++ y) = true) :
    x = p.take x.length ∧ isPref (p.drop x.length) y = true := by
  induction x generalizing p with
  | nil => exact ⟨rfl, by simpa using h⟩
  | cons b bs ih =>
    cases p with
    | nil => simp at hlen
    | cons a as =>
      simp only [List.cons_append, isPref, Bool.and_eq_true] at h
      have hab : a = b := eq_of_beq h.1
      have hr := ih as (by simp only [List.length_cons] at hlen; omega) h.2
      constructor
      · simp only [List.length_cons, List.take_succ_cons]
        rw [hab, ← hr.1]
      · simpa only [List.length_cons, List.drop_succ_cons] using hr.2

/-- A prefix occurrence is a substring occurrence. -/
theorem containsSub_of_isPref (p l : List Char) (h : isPref p l = true) :
    containsSub p l = true :=
  (containsSub_iff p l).mpr ⟨0, by simpa using h⟩

/-- A substring of a suffix is a substring. -/
theorem containsSub_of_drop (p l : List Char) (n : ℕ)
    (h : containsSub p (l.drop n) = true) : containsSub p l = true := by
  rcases (containsSub_iff _ _).mp h with ⟨m, hm⟩
  rw [List.drop_drop] at hm
  exact (containsSub_iff _ _).mpr ⟨n + m, hm⟩

/-- The index search fails exactly when the pattern does not occur. -/
theorem findIdxSub_eq_none_iff (p l : List Char) :
    findIdxSub p l = none ↔ containsSub p l = false := by
  induction l with
  | nil =>
    simp only [findIdxSub, containsSub]
    cases h : isPref p [] <;> simp [h]
  | cons c tl ih =>
    simp only [findIdxSub, containsSub]
    cases h : isPref p (c :: tl) <;> simp [h, ih]

/-- A substring of the right part of an append is a substring of the append. -/
theorem containsSub_append_right (p a b : List Char) (h : containsSub p b = true) :
    containsSub p (a ++ b) = true := by
  induction a with
  | nil => simpa using h
  | cons c tl ih =>
    simp only [List.cons_append, containsSub, Bool.or_eq_true]
    exact Or.inr ih

/-- A list is a prefix of itself followed by anything. -/
theorem isPref_append_self (p t : List Char) : isPref p (p ++ t) = true := by
  induction p with
  | nil => rfl
  | cons a as ih => simp [isPref, ih]

/-- Dropping all but the last `rl ≤ |y|` elements of `x ++ y` stays inside `y`. -/
theorem drop_sub_append (x y : List Char) (rl : ℕ) (h : rl ≤ y.length) :
    (x ++ y).drop ((x ++ y).length - rl) = y.drop (y.length - rl) := by
  rw [List.drop_append_eq_append_drop]
  have h1 : x.drop ((x ++ y).length - rl) = [] :=
    List.drop_eq_nil_of_le (by simp only [List.length_append]; omega)
  have h2 : (x ++ y).length - rl - x.length = y.length - rl := by
    simp only [List.length_append]; omega
  rw [h1, List.nil_append, h2]

/-- Main append refutation: `p` does not occur in `a ++ b` when it occurs in
neither part and no spanning occurrence exists (a spanning occurrence uses the
last `rl` characters of `a`, `0 < rl < |p|`, being `p.take rl`, continued by
`p.drop rl` as a prefix of `b`). -/
theorem containsSub_append_false (p a b : List Char)
    (ha : containsSub p a = false) (hb : containsSub p b = false)
    (hspan : ∀ rl : ℕ, 0 < rl → rl < p.length → rl ≤ a.length →
      a.drop (a.length - rl) = p.take rl → isPref (p.drop rl) b = false) :
    containsSub p (a ++ b) = false := by
  cases hcc : containsSub p (a ++ b) with
  | false => rfl
  | true =>
    exfalso
    rcases (containsSub_iff _ _).mp hcc with ⟨n, hn⟩
    rw [List.drop_append_eq_append_drop] at hn
    by_cases hna : n < a.length
    · have hz : n - a.length = 0 := by omega
      rw [hz, List.drop_zero] at hn
      by_cases hp : p.length ≤ a.length - n
      · have h1 : isPref p (a.drop n) = true :=
          isPref_append_left p (a.drop n) b (by rw [List.length_drop]; omega) hn
        have h2 : containsSub p a = true :=
          containsSub_of_drop p a n (containsSub_of_isPref _ _ h1)
        simp [h2] at ha
      · push_neg at hp
        have hsp := isPref_append_split p (a.drop n) b (by rw [List.length_drop]; omega) hn
        rw [List.length_drop] at hsp
        have harg : a.length - (a.length - n) = n := by omega
        have heq : a.drop (a.length - (a.length - n)) = p.take (a.length - n) := by
          rw [harg]; exact hsp.1
        have h5 := hspan (a.length - n) (by omega) (by omega) (by omega) heq
        exact absurd hsp.2 (by simp [h5])
    · push_neg at hna
      have h1 : a.drop n = [] := List.drop_eq_nil_of_le hna
      rw [h1, List.nil_append] at hn
      have h2 : containsSub p b = true := (containsSub_iff _ _).mpr ⟨n - a.length, hn⟩
      simp [h2] at hb

/-! # Claim C10 -/

/-- C10 fails on the code for templates where the markers are present but out of
order: `"# end # start"` contains both markers, yet the regex finds no match, so
the output is the unchanged input — it does NOT contain `#end` and still
contains `# end`. -/
theorem c10_counterexample :
    containsSub startMark tOrphan = true ∧
    containsSub endMark tOrphan = true ∧
    replace_constants tOrphan constsGood = tOrphan ∧
    containsSub hashEnd (replace_constants tOrphan constsGood) = false ∧
    containsSub endMark (replace_constants tOrphan constsGood) = true := by decide

/-- C10 amended: for templates in which the first `# start` is followed (at
distance ≥ 7) by a `# end`, no other `# end` occurs before the match or after
it, and the injected constants contain no `# end`: the rendered output contains
`#end` (written without a space in place of the matched `# end`), no longer
contains `# end`, and re-applying `replace_constants` to the output with any
constants returns the output unchanged. -/
theorem c10_render (t consts : List Char) (i d : ℕ)
    (hi : findIdxSub startMark t = some i)
    (hd : findIdxSub endMark (t.drop (i + 7)) = some d)
    (hpre : containsSub endMark (t.take i) = false)
    (hpost : containsSub endMark (t.drop (i + 7 + d + 5)) = false)
    (hc : containsSub endMark consts = false) :
    containsSub hashEnd (replace_constants t consts) = true ∧
    containsSub endMark (replace_constants t consts) = false ∧
    (∀ consts2 : List Char,
      replace_constants (replace_constants t consts) consts2 = replace_constants t consts) := by
  have hform : replace_constants t consts =
      t.take i ++ (startNl ++ (consts ++ (nlHashEnd ++ t.drop (i + 7 + d + 5)))) := by
    simp only [replace_constants, hi, hd]
    rw [show startNl = startMark ++ ['\n'] from by decide,
        show nlHashEnd = ['\n'] ++ hashEnd from by decide]
    simp [List.append_assoc]
  have hB3 : containsSub endMark (nlHashEnd ++ t.drop (i + 7 + d + 5)) = false := by
    apply containsSub_append_false endMark nlHashEnd _ (by decide) hpost
    intro rl h1 h2 h3 h4
    have h2a : rl < 5 := lt_of_lt_of_le h2 (by decide)
    interval_cases rl <;> exact absurd h4 (by decide)
  have hB2 : containsSub endMark (consts ++ (nlHashEnd ++ t.drop (i + 7 + d + 5))) = false := by
    apply containsSub_append_false endMark consts _ hc hB3
    intro rl h1 h2 h3 h4
    have h2a : rl < 5 := lt_of_lt_of_le h2 (by decide)
    interval_cases rl <;>
      exact isPref_append_left_neg _ nlHashEnd _ (by decide) (by decide)
  have hB1 : containsSub endMark
      (startNl ++ (consts ++ (nlHashEnd ++ t.drop (i + 7 + d + 5)))) = false := by
    apply containsSub_append_false endMark startNl _ (by decide) hB2
    intro rl h1 h2 h3 h4
    have h2a : rl < 5 := lt_of_lt_of_le h2 (by decide)
    interval_cases rl <;> exact absurd h4 (by decide)
  have houtB : containsSub endMark (replace_constants t consts) = false := by
    rw [hform]
    apply containsSub_append_false endMark (t.take i) _ hpre hB1
    intro rl h1 h2 h3 h4
    have h2a : rl < 5 := lt_of_lt_of_le h2 (by decide)
    interval_cases rl <;>
      exact isPref_append_left_neg _ startNl _ (by decide) (by decide)
  have hA : containsSub hashEnd (replace_constants t consts) = true := by
    rw [hform]
    apply containsSub_append_right
    apply containsSub_append_right
    apply containsSub_append_right
    apply (containsSub_iff _ _).mpr
    refine ⟨1, ?_⟩
    rw [show nlHashEnd = '\n' :: hashEnd from by decide]
    simp only [List.cons_append, List.drop_one, List.tail_cons]
    exact isPref_append_self hashEnd _
  refine ⟨hA, houtB, ?_⟩
  intro consts2
  generalize hgen : replace_constants t consts = out at houtB ⊢
  cases hfs : findIdxSub startMark out with
  | none => simp only [replace_constants, hfs]
  | some i2 =>
    have hnone : findIdxSub endMark (out.drop (i2 + 7)) = none := by
      apply (findIdxSub_eq_none_iff _ _).mpr
      cases hcc : containsSub endMark (out.drop (i2 + 7)) with
      | false => rfl
      | true => exact absurd (containsSub_of_drop _ _ _ hcc) (by simp [houtB])
    simp only [replace_constants, hfs, hnone]

/-- Witness for C10's amended theorem on a concrete well-formed template. -/
theorem c10_witness :
    containsSub hashEnd (replace_constants tGood constsGood) = true ∧
    containsSub endMark (replace_constants tGood constsGood) = false ∧
    replace_constants (replace_constants tGood constsGood) constsAlt =
      replace_constants tGood constsGood := by
  have h := c10_render tGood constsGood 1 4 (by decide) (by decide) (by decide) (by decide)
    (by decide)
  exact ⟨h.1, h.2.1, h.2.2 constsAlt⟩

end GridSearch
